import Mathlib

/-!
# Verification of the asset-manager discovery/naming pipeline

Shallow embedding of the compile-time asset pipeline of `asset-macros`
(`src/utils.rs`, `src/ir.rs`, `src/lib.rs`; `lib.rs` contains a textual
duplicate of the two helpers in `utils.rs`, so one embedding covers both).

Modelling conventions:
* Filesystem paths are lists of components (`List String`), mirroring
  `std::path::Path` components; `render` produces the platform string as a
  Unix build renders it (components joined by `"/"`), which is what
  `to_string_lossy` yields for the paths built by `Path::join` during the walk.
* A compiled `Regex` is modelled by its matching predicate `String → Bool`
  (the code only ever calls `Regex::is_match` on the rendered path string).
* The filesystem seen by the walk is an inductive tree (`FSEntries` is one
  directory's listing in `read_dir` order); the filesystem is assumed stable
  for the duration of a build, as the spec states.
* Machine strings are Lean `String`s; the Rust char classification calls
  (`is_numeric`, `is_lowercase`, ...) are modelled on their ASCII fragment,
  which covers every path the claims mention.
-/

/-! ## Identifier synthesizer: `utils.rs::path_to_variant_name`

The Rust code builds a `convert_case` converter with the default boundaries
plus the delimiter boundaries `/`, `\` and `.`, converts to `Case::Pascal`,
and prefixes `"Asset"` when the result starts with a numeric character.
The conversion splits the string into words at the boundaries (delimiter
characters are dropped), capitalizes each word (first char uppercased, rest
lowercased), and concatenates. -/

/-- Delimiter boundary characters: `convert_case` defaults (`_`, `-`, space)
plus those added by `add_boundaries` in `path_to_variant_name`
(`/`, `\`, `.`). -/
def isDelim (c : Char) : Bool :=
  c = '_' || c = '-' || c = ' ' || c = '/' || c = '\\' || c = '.'

/-- The non-delimiter default boundaries of `convert_case` between a previous
character `p` and current character `c` (with lookahead `next`):
lower→upper, digit→upper, digit→lower, lower→digit, and the acronym boundary
(upper, upper, then lower). -/
def transitionBoundary (p c : Char) (next : Option Char) : Bool :=
  (p.isLower && c.isUpper) ||
  (p.isDigit && c.isUpper) ||
  (p.isDigit && c.isLower) ||
  (p.isLower && c.isDigit) ||
  (p.isUpper && c.isUpper && (match next with
    | some n => n.isLower
    | none => false))

/-- Word segmentation of `convert_case`: scan the characters, dropping
delimiter characters and breaking words there, and breaking (without
dropping) at transition boundaries. `cur` is the word accumulated so far. -/
def splitCharsAux : List Char → List Char → List (List Char)
  | cur, [] => [cur]
  | cur, c :: rest =>
    if isDelim c then
      cur :: splitCharsAux [] rest
    else
      match cur.getLast? with
      | none => splitCharsAux [c] rest
      | some p =>
        if transitionBoundary p c rest.head? then
          cur :: splitCharsAux [c] rest
        else
          splitCharsAux (cur ++ [c]) rest

/-- The word list of a string: segmentation with empty words dropped. -/
def splitWords (s : String) : List (List Char) :=
  (splitCharsAux [] s.data).filter (fun w => !w.isEmpty)

/-- The `Pascal` word pattern of `convert_case`: first character uppercased,
the remainder lowercased. -/
def capitalize : List Char → List Char
  | [] => []
  | c :: rest => c.toUpper :: rest.map Char.toLower

/-- `conv.convert(path_str)` for the converter built in
`path_to_variant_name`: capitalize every word and concatenate. -/
def pascalConvert (s : String) : String :=
  String.mk (((splitWords s).map capitalize).flatten)

/-- `variant_name.starts_with(|first: char| first.is_numeric())`. -/
def startsWithNumeric (s : String) : Bool :=
  match s.data with
  | [] => false
  | c :: _ => c.isDigit

/-- `utils.rs::path_to_variant_name`: Pascal-case conversion, then prefix
`"Asset"` when the name would start with a digit. -/
def path_to_variant_name (s : String) : String :=
  let variant_name := pascalConvert s
  if startsWithNumeric variant_name then "Asset" ++ variant_name
  else variant_name

/-- Replace every character through `f`, modelling `str::replace` of one
separator by the other. -/
def mapChars (f : Char → Char) (s : String) : String :=
  String.mk (s.data.map f)

/-- `/` rewritten to `\`. -/
def slashToBackslash (c : Char) : Char :=
  if c = '/' then '\\' else c

/-- `\` rewritten to `/`. -/
def backslashToSlash (c : Char) : Char :=
  if c = '\\' then '/' else c

/-! ## Discovery engine: `utils.rs::collect_files`

`collect_files(dir, files, include_regex, ignore_regex)` returns
`Err(NotFound)` when `!dir.exists()`; otherwise it iterates `read_dir(dir)`
(which itself fails when `dir` exists but is not a directory — modelled as
the distinct error `readDirNotADirectory`, since the OS error for reading a
non-directory is not `NotFound`), skips every entry whose full rendered path
matches the ignore regex, recurses into non-ignored directories, and pushes
every non-ignored file whose full rendered path passes the include filter. -/

/-- One directory listing, in `read_dir` order: each entry is a file name or
a subdirectory name with its own listing. -/
inductive FSEntries where
  | nil : FSEntries
  | consFile (name : String) (rest : FSEntries) : FSEntries
  | consDir (name : String) (contents : FSEntries) (rest : FSEntries) : FSEntries
deriving DecidableEq, Repr

/-- What the filesystem holds at the `dir` argument of a `collect_files`
call: a regular file or a directory with a listing. -/
inductive FSNode where
  | file : FSNode
  | dir (contents : FSEntries) : FSNode
deriving DecidableEq, Repr

/-- Directory listing as a list of (name, node) pairs, for stating
per-entry properties. -/
def FSEntries.toList : FSEntries → List (String × FSNode)
  | .nil => []
  | .consFile name rest => (name, .file) :: rest.toList
  | .consDir name ces rest => (name, .dir ces) :: rest.toList

/-- Render a component path the way the build platform's `to_string_lossy`
renders the `PathBuf`s built by `Path::join` during the walk: components
joined by `/`. -/
def render : List String → String
  | [] => ""
  | [s] => s
  | s :: rest => s ++ "/" ++ render rest

/-- The two error exits of `collect_files`: the explicit
`ErrorKind::NotFound` for a missing `dir`, and the error `fs::read_dir`
raises when `dir` exists but is not a directory. -/
inductive CFError where
  | notFound : CFError
  | readDirNotADirectory : CFError
deriving DecidableEq, Repr

deriving instance DecidableEq for Except

/-- `ignore_regex.as_ref().is_some_and(|regex| regex.is_match(&path_str))`. -/
def ignoreMatches (ign : Option (String → Bool)) (s : String) : Bool :=
  match ign with
  | none => false
  | some r => r s

/-- `include_regex.as_ref().is_none_or(|regex| regex.is_match(&path_str))`. -/
def includeMatches (inc : Option (String → Bool)) (s : String) : Bool :=
  match inc with
  | none => true
  | some r => r s

/-- The `for entry in fs::read_dir(dir)?` loop of `collect_files`, for the
listing of the directory at `dir`. Returns the loop's outcome together with
the final state of the `files` accumulator (the Rust `&mut Vec` keeps its
contents even when an error propagates). The recursive
`collect_files(&path, ...)?` call on a subdirectory re-runs the same loop on
the child listing: the child came from `read_dir`, so (the filesystem being
stable for the build) its `exists()` pre-check succeeds and its own
`read_dir` does not fail. -/
def collectEntriesLoop (inc ign : Option (String → Bool)) :
    List String → FSEntries → List (List String) →
    Except CFError Unit × List (List String)
  | _, .nil, files => (.ok (), files)
  | dir, .consFile name rest, files =>
    let path := dir ++ [name]
    if ignoreMatches ign (render path) then
      collectEntriesLoop inc ign dir rest files
    else if includeMatches inc (render path) then
      collectEntriesLoop inc ign dir rest (files ++ [path])
    else
      collectEntriesLoop inc ign dir rest files
  | dir, .consDir name ces rest, files =>
    let path := dir ++ [name]
    if ignoreMatches ign (render path) then
      collectEntriesLoop inc ign dir rest files
    else
      match collectEntriesLoop inc ign path ces files with
      | (.ok _, files') => collectEntriesLoop inc ign dir rest files'
      | (.error e, files') => (.error e, files')

/-- `utils.rs::collect_files` (textually duplicated in `lib.rs`): `node` is
what the filesystem holds at `dir` (`none` when nothing does, making
`dir.exists()` false). -/
def collect_files (inc ign : Option (String → Bool)) (dir : List String)
    (node : Option FSNode) (files : List (List String)) :
    Except CFError Unit × List (List String) :=
  match node with
  | none => (.error .notFound, files)
  | some .file => (.error .readDirNotADirectory, files)
  | some (.dir entries) => collectEntriesLoop inc ign dir entries files

/-! ## Entry assembler: `ir.rs`, `TryFrom<AssetsInput> for AssetEnum`
(the same pipeline is inlined in `lib.rs::assets`): run `collect_files` from
the joined directory path with an empty accumulator, fail with the
"No matching files found" error when the accumulator stayed empty, and map
each collected path to an entry via `strip_prefix(&dir_path).unwrap()` and
`path_to_variant_name`. -/

/-- `std::path::Path::strip_prefix`: succeeds exactly when the prefix's
components are an initial segment of the path's components, returning the
remaining components. -/
def stripPrefix : List String → List String → Option (List String)
  | [], p => some p
  | _ :: _, [] => none
  | b :: bs, c :: cs => if b = c then stripPrefix bs cs else none

/-- `ir.rs::AssetEntry` as assembled by `try_from`: the synthesized variant
name, the full path string, and the relative path string. -/
structure AssetEntry where
  variant_ident : String
  full_path : String
  rel_path : String
deriving DecidableEq, Repr

/-- The errors of the `try_from` assembly stage (regex compilation and the
`CARGO_MANIFEST_DIR` lookup happen before discovery and are out of this
model): a propagated `collect_files` error, the "No matching files found"
error, and the panic of `strip_prefix(&dir_path).unwrap()`. -/
inductive AsmError where
  | readDirFailed (e : CFError) : AsmError
  | noMatches : AsmError
  | stripPanic : AsmError
deriving DecidableEq, Repr

/-- The per-path closure of the `entries` mapping in `try_from`:
`strip_prefix` then `path_to_variant_name` on the relative path; `none`
models the `unwrap` panic. -/
def mkEntry (dir_path p : List String) : Option AssetEntry :=
  match stripPrefix dir_path p with
  | none => none
  | some rel =>
    some { variant_ident := path_to_variant_name (render rel),
           full_path := render p,
           rel_path := render rel }

/-- `valid_files.into_iter().map(...).collect()` over `mkEntry`, with the
`unwrap` panic propagated. -/
def mkEntries (dir_path : List String) : List (List String) → Option (List AssetEntry)
  | [] => some []
  | p :: rest =>
    match mkEntry dir_path p, mkEntries dir_path rest with
    | some e, some es => some (e :: es)
    | _, _ => none

/-- The discovery-and-assembly pipeline of `try_from` (and of
`lib.rs::assets`), starting at the `collect_files` call: `node` is what the
filesystem holds at the joined `dir_path`. -/
def try_from_pipeline (inc ign : Option (String → Bool)) (dir_path : List String)
    (node : Option FSNode) : Except AsmError (List AssetEntry) :=
  match collect_files inc ign dir_path node [] with
  | (.error e, _) => .error (.readDirFailed e)
  | (.ok _, valid_files) =>
    if valid_files.isEmpty then .error .noMatches
    else
      match mkEntries dir_path valid_files with
      | none => .error .stripPanic
      | some entries => .ok entries

/-- Specification-level reachability: the paths the loop collects from the
listing `es` of the directory at `dir` — a file entry of the listing that is
neither ignored nor rejected by the include filter, or a path collected
inside a non-ignored subdirectory entry. -/
inductive Collected (inc ign : Option (String → Bool)) :
    List String → FSEntries → List String → Prop
  | headFile {dir name rest} :
      ignoreMatches ign (render (dir ++ [name])) = false →
      includeMatches inc (render (dir ++ [name])) = true →
      Collected inc ign dir (.consFile name rest) (dir ++ [name])
  | headDir {dir name ces rest q} :
      ignoreMatches ign (render (dir ++ [name])) = false →
      Collected inc ign (dir ++ [name]) ces q →
      Collected inc ign dir (.consDir name ces rest) q
  | tailFile {dir name rest q} :
      Collected inc ign dir rest q →
      Collected inc ign dir (.consFile name rest) q
  | tailDir {dir name ces rest q} :
      Collected inc ign dir rest q →
      Collected inc ign dir (.consDir name ces rest) q

/-! ## Sanity checks: the embedding on the repository's own unit tests

These reproduce the `#[test]` expectations of `utils.rs` and `lib.rs`, plus
a few concrete runs of the walk and the pipeline. -/

theorem sanity_variant_names_basic :
    path_to_variant_name "image.png" = "ImagePng" ∧
    path_to_variant_name "style.css" = "StyleCss" ∧
    path_to_variant_name "ui/button.svg" = "UiButtonSvg" ∧
    path_to_variant_name "assets/icons/home.png" = "AssetsIconsHomePng" ∧
    path_to_variant_name "ui\\button.svg" = "UiButtonSvg" ∧
    path_to_variant_name "assets\\icons\\home.png" = "AssetsIconsHomePng" := by
  refine ⟨by decide, by decide, by decide, by decide, by decide, by decide⟩

theorem sanity_variant_names_boundaries :
    path_to_variant_name "user-icon.png" = "UserIconPng" ∧
    path_to_variant_name "ui/user-profile/avatar_small.jpg"
      = "UiUserProfileAvatarSmallJpg" ∧
    path_to_variant_name "button_large.png" = "ButtonLargePng" ∧
    path_to_variant_name "1icon.png" = "Asset1IconPng" ∧
    path_to_variant_name "2021/logo.png" = "Asset2021LogoPng" ∧
    path_to_variant_name "config.dev.json" = "ConfigDevJson" := by
  refine ⟨by decide, by decide, by decide, by decide, by decide, by decide⟩

theorem sanity_collect_files_runs :
    collect_files none none ["b"]
      (some (.dir (.consDir "u" (.consFile "x.png" .nil) (.consFile "y.css" .nil)))) []
      = (.ok (), [["b", "u", "x.png"], ["b", "y.css"]]) ∧
    collect_files none (some (fun s => s == "b/u")) ["b"]
      (some (.dir (.consDir "u" (.consFile "x.png" .nil) (.consFile "y.css" .nil)))) []
      = (.ok (), [["b", "y.css"]]) ∧
    collect_files (some (fun s => s == "b/u/x.png")) none ["b"]
      (some (.dir (.consDir "u" (.consFile "x.png" .nil) (.consFile "y.css" .nil)))) []
      = (.ok (), [["b", "u", "x.png"]]) := by
  refine ⟨by decide, by decide, by decide⟩

theorem sanity_pipeline_runs :
    try_from_pipeline none none ["b"]
      (some (.dir (.consFile "image.png" (.consFile "style.css" .nil))))
      = .ok [⟨"ImagePng", "b/image.png", "image.png"⟩,
             ⟨"StyleCss", "b/style.css", "style.css"⟩] ∧
    mapChars slashToBackslash "ui/button.svg" = "ui\\button.svg" := by
  refine ⟨by decide, by decide⟩

/-! ## Invariants of the discovery loop -/

/-- The loop itself never produces an error: both error exits of
`collect_files` concern the top-level `dir` argument, and the recursive call
re-enters the loop directly. -/
theorem collectEntriesLoop_fst_ok (inc ign : Option (String → Bool)) :
    ∀ (es : FSEntries) (dir : List String) (files : List (List String)),
    (collectEntriesLoop inc ign dir es files).1 = .ok () := by
  intro es
  induction es with
  | nil => intro dir files; rfl
  | consFile name rest ih =>
    intro dir files
    simp only [collectEntriesLoop]
    split
    · exact ih ..
    · split
      · exact ih ..
      · exact ih ..
  | consDir name ces rest ihc ihr =>
    intro dir files
    simp only [collectEntriesLoop]
    split
    · exact ihr ..
    · split
      · exact ihr ..
      · rename_i e files' heq
        have hok := ihc (dir ++ [name]) files
        rw [heq] at hok
        exact absurd hok (by simp)

/-- The loop only appends to the accumulator: the previous contents stay,
unchanged and in order, as an initial segment of the final vector. -/
theorem collectEntriesLoop_accumulates (inc ign : Option (String → Bool)) :
    ∀ (es : FSEntries) (dir : List String) (files : List (List String)),
    files <+: (collectEntriesLoop inc ign dir es files).2 := by
  intro es
  induction es with
  | nil => intro dir files; exact List.prefix_refl _
  | consFile name rest ih =>
    intro dir files
    simp only [collectEntriesLoop]
    split
    · exact ih ..
    · split
      · exact (List.prefix_append files _).trans (ih ..)
      · exact ih ..
  | consDir name ces rest ihc ihr =>
    intro dir files
    simp only [collectEntriesLoop]
    split
    · exact ihr ..
    · split
      · rename_i files' heq
        have hc := ihc (dir ++ [name]) files
        rw [heq] at hc
        exact hc.trans (ihr ..)
      · rename_i e files' heq
        have hc := ihc (dir ++ [name]) files
        rw [heq] at hc
        exact hc

theorem collected_nil_iff {inc ign : Option (String → Bool)}
    {dir q : List String} : Collected inc ign dir .nil q ↔ False := by
  constructor
  · intro h; cases h
  · intro h; cases h

theorem collected_consFile_iff {inc ign : Option (String → Bool)}
    {dir q : List String} {name : String} {rest : FSEntries} :
    Collected inc ign dir (.consFile name rest) q ↔
      (ignoreMatches ign (render (dir ++ [name])) = false ∧
       includeMatches inc (render (dir ++ [name])) = true ∧
       q = dir ++ [name]) ∨
      Collected inc ign dir rest q := by
  constructor
  · intro h
    cases h with
    | headFile h1 h2 => exact Or.inl ⟨h1, h2, rfl⟩
    | tailFile h => exact Or.inr h
  · rintro (⟨h1, h2, rfl⟩ | h)
    · exact .headFile h1 h2
    · exact .tailFile h

theorem collected_consDir_iff {inc ign : Option (String → Bool)}
    {dir q : List String} {name : String} {ces rest : FSEntries} :
    Collected inc ign dir (.consDir name ces rest) q ↔
      (ignoreMatches ign (render (dir ++ [name])) = false ∧
       Collected inc ign (dir ++ [name]) ces q) ∨
      Collected inc ign dir rest q := by
  constructor
  · intro h
    cases h with
    | headDir h1 h2 => exact Or.inl ⟨h1, h2⟩
    | tailDir h => exact Or.inr h
  · rintro (⟨h1, h2⟩ | h)
    · exact .headDir h1 h2
    · exact .tailDir h

/-- Membership characterization of the loop's accumulator: a path is in the
final vector exactly when it was there before or is `Collected` from the
listing. -/
theorem mem_collectEntriesLoop (inc ign : Option (String → Bool)) :
    ∀ (es : FSEntries) (dir : List String) (files : List (List String))
      (q : List String),
    q ∈ (collectEntriesLoop inc ign dir es files).2 ↔
      q ∈ files ∨ Collected inc ign dir es q := by
  intro es
  induction es with
  | nil =>
    intro dir files q
    simp [collectEntriesLoop, collected_nil_iff]
  | consFile name rest ih =>
    intro dir files q
    simp only [collectEntriesLoop]
    split
    · rename_i hign
      rw [ih, collected_consFile_iff]
      simp [hign]
    · rename_i hign
      rw [Bool.not_eq_true] at hign
      split
      · rename_i hinc
        rw [ih, collected_consFile_iff]
        simp [hign, hinc, List.mem_append]
        tauto
      · rename_i hinc
        rw [Bool.not_eq_true] at hinc
        rw [ih, collected_consFile_iff]
        simp [hign, hinc]
  | consDir name ces rest ihc ihr =>
    intro dir files q
    simp only [collectEntriesLoop]
    split
    · rename_i hign
      rw [ihr, collected_consDir_iff]
      simp [hign]
    · rename_i hign
      rw [Bool.not_eq_true] at hign
      split
      · rename_i files' heq
        have hc := ihc (dir ++ [name]) files q
        rw [heq] at hc
        rw [ihr, hc, collected_consDir_iff]
        simp [hign]
        tauto
      · rename_i e files' heq
        have hok := collectEntriesLoop_fst_ok inc ign ces (dir ++ [name]) files
        rw [heq] at hok
        exact absurd hok (by simp)

/-- Every collected path extends the directory the loop runs from. -/
theorem Collected.extends_dir {inc ign : Option (String → Bool)}
    {dir q : List String} {es : FSEntries}
    (h : Collected inc ign dir es q) : dir <+: q := by
  induction h with
  | headFile _ _ => exact List.prefix_append ..
  | headDir _ _ ih => exact (List.prefix_append ..).trans ih
  | tailFile _ ih => exact ih
  | tailDir _ ih => exact ih

/-- A collected path enters the listing through some entry `name` whose full
path did not match the ignore filter. -/
theorem Collected.decomp {inc ign : Option (String → Bool)}
    {dir q : List String} {es : FSEntries}
    (h : Collected inc ign dir es q) :
    ∃ name suffix, q = dir ++ name :: suffix ∧
      ignoreMatches ign (render (dir ++ [name])) = false := by
  induction h with
  | headFile h1 _ => exact ⟨_, [], rfl, h1⟩
  | headDir h1 h2 ih =>
    obtain ⟨t, ht⟩ := h2.extends_dir
    exact ⟨_, t, by rw [← ht]; simp, h1⟩
  | tailFile _ ih => exact ih
  | tailDir _ ih => exact ih

/-- Every collected path passed the include filter on its full rendered
path. -/
theorem Collected.passes_include {inc ign : Option (String → Bool)}
    {dir q : List String} {es : FSEntries}
    (h : Collected inc ign dir es q) :
    includeMatches inc (render q) = true := by
  induction h with
  | headFile _ h2 => exact h2
  | headDir _ _ ih => exact ih
  | tailFile _ ih => exact ih
  | tailDir _ ih => exact ih

/-- A non-ignored file entry of the listing that passes the include filter
is collected. -/
theorem Collected.of_file_entry {inc ign : Option (String → Bool)}
    {dir : List String} {name : String} {es : FSEntries}
    (hmem : (name, FSNode.file) ∈ es.toList)
    (hign : ignoreMatches ign (render (dir ++ [name])) = false)
    (hinc : includeMatches inc (render (dir ++ [name])) = true) :
    Collected inc ign dir es (dir ++ [name]) := by
  induction es with
  | nil => simp [FSEntries.toList] at hmem
  | consFile name' rest ih =>
    rw [FSEntries.toList, List.mem_cons] at hmem
    rcases hmem with heq | hmem
    · obtain ⟨rfl, -⟩ := Prod.mk.injEq .. ▸ heq
      exact .headFile hign hinc
    · exact .tailFile (ih hmem)
  | consDir name' ces rest ihc ihr =>
    rw [FSEntries.toList, List.mem_cons] at hmem
    rcases hmem with heq | hmem
    · simp at heq
    · exact .tailDir (ihr hmem)

/-- Left-cancellation for list prefixes. -/
theorem prefix_cancel_left {α : Type _} :
    ∀ (a b c : List α), a ++ b <+: a ++ c → b <+: c := by
  intro a
  induction a with
  | nil => intro b c h; exact h
  | cons x xs ih =>
    intro b c h
    rw [List.cons_append, List.cons_append, List.cons_prefix_cons] at h
    exact ih b c h.2

/-! ## Synthesizer lemmas -/

theorem transitionBoundary_map_head (f : Char → Char)
    (hlower : ∀ c, (f c).isLower = c.isLower) (p c : Char) (rest : List Char) :
    transitionBoundary p c ((rest.map f).head?) =
      transitionBoundary p c rest.head? := by
  cases rest with
  | nil => rfl
  | cons r _ => simp [transitionBoundary, hlower]

/-- A character rewrite that preserves delimiter-hood, fixes non-delimiters,
and preserves lowercase-hood does not change word segmentation. -/
theorem splitCharsAux_map_eq (f : Char → Char)
    (hdelim : ∀ c, isDelim (f c) = isDelim c)
    (hfix : ∀ c, isDelim c = false → f c = c)
    (hlower : ∀ c, (f c).isLower = c.isLower) :
    ∀ (l cur : List Char), splitCharsAux cur (l.map f) = splitCharsAux cur l := by
  intro l
  induction l with
  | nil => intro cur; rfl
  | cons c rest ih =>
    intro cur
    rw [List.map_cons]
    simp only [splitCharsAux]
    rw [hdelim c]
    by_cases hc : isDelim c = true
    · simp only [hc, if_true, ih]
    · have hc' : isDelim c = false := by simpa using hc
      rw [hfix c hc']
      simp only [hc', Bool.false_eq_true, if_false]
      cases hl : cur.getLast? with
      | none => simpa using ih [c]
      | some p =>
        simp only
        rw [transitionBoundary_map_head f hlower]
        by_cases ht : transitionBoundary p c rest.head? = true
        · simp only [ht, if_true, ih]
        · have ht' : transitionBoundary p c rest.head? = false := by simpa using ht
          simp only [ht', Bool.false_eq_true, if_false, ih]

/-- Such a rewrite leaves the whole synthesized identifier unchanged. -/
theorem path_to_variant_name_mapChars (f : Char → Char)
    (hdelim : ∀ c, isDelim (f c) = isDelim c)
    (hfix : ∀ c, isDelim c = false → f c = c)
    (hlower : ∀ c, (f c).isLower = c.isLower) (s : String) :
    path_to_variant_name (mapChars f s) = path_to_variant_name s := by
  have hsplit : splitCharsAux [] (mapChars f s).data = splitCharsAux [] s.data := by
    have : (mapChars f s).data = s.data.map f := rfl
    rw [this, splitCharsAux_map_eq f hdelim hfix hlower]
  unfold path_to_variant_name pascalConvert splitWords
  rw [hsplit]

theorem slashToBackslash_delim (c : Char) :
    isDelim (slashToBackslash c) = isDelim c := by
  by_cases hc : c = '/'
  · subst hc; decide
  · simp [slashToBackslash, hc]

theorem slashToBackslash_fix (c : Char) (h : isDelim c = false) :
    slashToBackslash c = c := by
  have : ¬ c = '/' := by rintro rfl; simp [isDelim] at h
  simp [slashToBackslash, this]

theorem slashToBackslash_lower (c : Char) :
    (slashToBackslash c).isLower = c.isLower := by
  by_cases hc : c = '/'
  · subst hc; decide
  · simp [slashToBackslash, hc]

theorem backslashToSlash_delim (c : Char) :
    isDelim (backslashToSlash c) = isDelim c := by
  by_cases hc : c = '\\'
  · subst hc; decide
  · simp [backslashToSlash, hc]

theorem backslashToSlash_fix (c : Char) (h : isDelim c = false) :
    backslashToSlash c = c := by
  have : ¬ c = '\\' := by rintro rfl; simp [isDelim] at h
  simp [backslashToSlash, this]

theorem backslashToSlash_lower (c : Char) :
    (backslashToSlash c).isLower = c.isLower := by
  by_cases hc : c = '\\'
  · subst hc; decide
  · simp [backslashToSlash, hc]

/-- The `"Asset"` prefix hides any leading digit. -/
theorem startsWithNumeric_asset_append (v : String) :
    startsWithNumeric ("Asset" ++ v) = false := by
  obtain ⟨d⟩ := v
  rfl

/-! ## Claims about the identifier synthesizer -/

/-- C6: Identifier synthesis follows Strategy A — the relative path is split
at path-separator and dot boundaries (with hyphens and underscores as
sub-boundaries), each fragment is title-cased, and the fragments are
concatenated with no separator (this is what `path_to_variant_name`
computes); in particular
`ui/user-profile/avatar_small.jpg ↦ UiUserProfileAvatarSmallJpg`,
`image.png ↦ ImagePng`, and `style.css ↦ StyleCss`. -/
theorem claim_c6_strategy_a :
    path_to_variant_name "ui/user-profile/avatar_small.jpg"
      = "UiUserProfileAvatarSmallJpg" ∧
    path_to_variant_name "image.png" = "ImagePng" ∧
    path_to_variant_name "style.css" = "StyleCss" := by
  refine ⟨by decide, by decide, by decide⟩

/-- C7: No synthesized identifier begins with a digit: whenever the
title-cased concatenation would begin with a digit the fixed literal
`"Asset"` is prefixed; in particular `1icon.png ↦ Asset1IconPng`. -/
theorem claim_c7_no_leading_digit :
    (∀ s : String, startsWithNumeric (path_to_variant_name s) = false) ∧
    path_to_variant_name "1icon.png" = "Asset1IconPng" := by
  constructor
  · intro s
    have hdef : path_to_variant_name s =
        if startsWithNumeric (pascalConvert s) then "Asset" ++ pascalConvert s
        else pascalConvert s := rfl
    rw [hdef]
    by_cases h : startsWithNumeric (pascalConvert s) = true
    · simp only [h, if_true, startsWithNumeric_asset_append]
    · have h' : startsWithNumeric (pascalConvert s) = false := by simpa using h
      simp only [h', Bool.false_eq_true, if_false]
  · decide

/-- C8: Identifier synthesis is separator-agnostic — replacing every `/` by
`\` (or every `\` by `/`) in the path leaves the synthesized identifier
unchanged; in particular `ui/button.svg` and `ui\button.svg` both synthesize
to `UiButtonSvg`. -/
theorem claim_c8_separator_agnostic :
    (∀ s : String,
      path_to_variant_name (mapChars slashToBackslash s) = path_to_variant_name s) ∧
    (∀ s : String,
      path_to_variant_name (mapChars backslashToSlash s) = path_to_variant_name s) ∧
    path_to_variant_name "ui/button.svg" = "UiButtonSvg" ∧
    path_to_variant_name "ui\\button.svg" = "UiButtonSvg" := by
  refine ⟨fun s => ?_, fun s => ?_, by decide, by decide⟩
  · exact path_to_variant_name_mapChars slashToBackslash
      slashToBackslash_delim slashToBackslash_fix slashToBackslash_lower s
  · exact path_to_variant_name_mapChars backslashToSlash
      backslashToSlash_delim backslashToSlash_fix backslashToSlash_lower s


/-! ## Claims about discovery -/

/-- C2: An entry whose full path string matches the ignore pattern is
skipped entirely: no path at or beneath it is ever added to the result —
every such path found in the final vector was already in the accumulator
before the call. -/
theorem claim_c2_ignore_prunes (inc ign : Option (String → Bool))
    (dir : List String) (es : FSEntries) (name : String) (child : FSNode)
    (files : List (List String)) (q : List String)
    (hmem : (name, child) ∈ es.toList)
    (hign : ignoreMatches ign (render (dir ++ [name])) = true)
    (hq : q ∈ (collect_files inc ign dir (some (.dir es)) files).2)
    (hunder : dir ++ [name] <+: q) :
    q ∈ files := by
  rw [show collect_files inc ign dir (some (.dir es)) files
      = collectEntriesLoop inc ign dir es files from rfl] at hq
  rw [mem_collectEntriesLoop] at hq
  rcases hq with hq | hq
  · exact hq
  · obtain ⟨nm, suffix, rfl, hnm⟩ := hq.decomp
    have := prefix_cancel_left dir [name] (nm :: suffix) hunder
    rw [List.cons_prefix_cons] at this
    obtain ⟨rfl, -⟩ := this
    rw [hign] at hnm
    exact absurd hnm (by simp)

/-- C3: A file entry of a traversed directory that is not ignored lands in
the discovery result if and only if the include pattern is absent or matches
— where the matched string is the full rendered path including the `dir`
prefix (`render (dir ++ [name])`), not the path relative to `dir`. -/
theorem claim_c3_include_filter (inc ign : Option (String → Bool))
    (dir : List String) (es : FSEntries) (name : String)
    (hmem : (name, FSNode.file) ∈ es.toList)
    (hign : ignoreMatches ign (render (dir ++ [name])) = false) :
    (dir ++ [name]) ∈ (collect_files inc ign dir (some (.dir es)) []).2 ↔
      includeMatches inc (render (dir ++ [name])) = true := by
  rw [show collect_files inc ign dir (some (.dir es)) []
      = collectEntriesLoop inc ign dir es [] from rfl]
  rw [mem_collectEntriesLoop]
  simp only [List.not_mem_nil, false_or]
  constructor
  · intro h
    exact h.passes_include
  · intro h
    exact .of_file_entry hmem hign h

/-- The accumulator is an initial segment of any `collect_files` result. -/
theorem collect_files_accumulates (inc ign : Option (String → Bool))
    (dir : List String) (node : Option FSNode) (files : List (List String)) :
    files <+: (collect_files inc ign dir node files).2 := by
  match node with
  | none => exact List.prefix_refl _
  | some .file => exact List.prefix_refl _
  | some (.dir es) => exact collectEntriesLoop_accumulates ..

/-- Anything in a `collect_files` result was in the accumulator already or
is a path `Collected` from the traversed directory tree. -/
theorem collect_files_mem_inv (inc ign : Option (String → Bool))
    (dir : List String) (node : Option FSNode) (files : List (List String))
    (q : List String) (hq : q ∈ (collect_files inc ign dir node files).2) :
    q ∈ files ∨ ∃ es, node = some (.dir es) ∧ Collected inc ign dir es q := by
  match node with
  | none => exact Or.inl hq
  | some .file => exact Or.inl hq
  | some (.dir es) =>
    rw [show collect_files inc ign dir (some (.dir es)) files
        = collectEntriesLoop inc ign dir es files from rfl] at hq
    rw [mem_collectEntriesLoop] at hq
    rcases hq with hq | hq
    · exact Or.inl hq
    · exact Or.inr ⟨es, rfl, hq⟩

/-- C10: `collect_files` only appends to its accumulator — whatever the
outcome, the previous contents stay unchanged and in order as an initial
segment, and everything after them is a newly collected file path of the
traversed tree. -/
theorem claim_c10_append_only (inc ign : Option (String → Bool))
    (dir : List String) (node : Option FSNode) (files : List (List String)) :
    files <+: (collect_files inc ign dir node files).2 ∧
    ∀ q, q ∈ (collect_files inc ign dir node files).2 →
      q ∈ files ∨ ∃ es, node = some (.dir es) ∧ Collected inc ign dir es q :=
  ⟨collect_files_accumulates .., fun q hq => collect_files_mem_inv _ _ _ _ _ q hq⟩

/-- `strip_prefix` succeeds on any extension of the base path. -/
theorem stripPrefix_of_extends :
    ∀ (b q : List String), b <+: q → stripPrefix b q = some (q.drop b.length) := by
  intro b
  induction b with
  | nil => intro q h; simp [stripPrefix]
  | cons x xs ih =>
    intro q h
    cases q with
    | nil => exact absurd h (by simp)
    | cons y ys =>
      rw [List.cons_prefix_cons] at h
      obtain ⟨rfl, h2⟩ := h
      simp [stripPrefix, ih ys h2]

theorem mkEntries_isSome (base : List String) :
    ∀ (l : List (List String)), (∀ q ∈ l, (mkEntry base q).isSome) →
    (mkEntries base l).isSome := by
  intro l
  induction l with
  | nil => intro _; rfl
  | cons p rest ih =>
    intro h
    have hp := h p (by simp)
    have hr := ih (fun q hq => h q (by simp [hq]))
    rw [mkEntries]
    cases hep : mkEntry base p with
    | none => rw [hep] at hp; exact absurd hp (by simp)
    | some e =>
      cases her : mkEntries base rest with
      | none => rw [her] at hr; exact absurd hr (by simp)
      | some es => simp

theorem mkEntries_length (base : List String) :
    ∀ (l : List (List String)) (es : List AssetEntry),
    mkEntries base l = some es → es.length = l.length := by
  intro l
  induction l with
  | nil => intro es h; cases h; rfl
  | cons p rest ih =>
    intro es h
    rw [mkEntries] at h
    cases hep : mkEntry base p with
    | none => rw [hep] at h; cases h
    | some e =>
      rw [hep] at h
      cases her : mkEntries base rest with
      | none => rw [her] at h; cases h
      | some es' =>
        rw [her] at h
        cases h
        simp [ih es' her]

/-- Every assembled entry's identifier is literally the synthesized name of
its relative path. -/
theorem mkEntries_variant (base : List String) :
    ∀ (l : List (List String)) (es : List AssetEntry),
    mkEntries base l = some es →
    ∀ e ∈ es, e.variant_ident = path_to_variant_name e.rel_path := by
  intro l
  induction l with
  | nil => intro es h; cases h; intro e he; exact absurd he (by simp)
  | cons p rest ih =>
    intro es h
    rw [mkEntries] at h
    cases hep : mkEntry base p with
    | none => rw [hep] at h; cases h
    | some e0 =>
      rw [hep] at h
      cases her : mkEntries base rest with
      | none => rw [her] at h; cases h
      | some es' =>
        rw [her] at h
        cases h
        intro e he
        rcases List.mem_cons.mp he with rfl | he'
        · rw [mkEntry] at hep
          cases hsp : stripPrefix base p with
          | none => rw [hsp] at hep; cases hep
          | some rel =>
            rw [hsp] at hep
            cases hep
            rfl
        · exact ih es' her e he'

/-! ## Claims about assembly -/

/-- C9: Every path discovery returns is under `base_dir`, so the assembler's
`strip_prefix(&dir_path).unwrap()` always succeeds and the pipeline can
never end in the strip panic. -/
theorem claim_c9_strip_never_fails (inc ign : Option (String → Bool))
    (base : List String) (node : Option FSNode) :
    (∀ q, q ∈ (collect_files inc ign base node []).2 →
      stripPrefix base q = some (q.drop base.length)) ∧
    try_from_pipeline inc ign base node ≠ Except.error AsmError.stripPanic := by
  have hstrip : ∀ q, q ∈ (collect_files inc ign base node []).2 →
      stripPrefix base q = some (q.drop base.length) := by
    intro q hq
    rcases collect_files_mem_inv inc ign base node [] q hq with h | ⟨es, rfl, hc⟩
    · exact absurd h (by simp)
    · exact stripPrefix_of_extends base q hc.extends_dir
  refine ⟨hstrip, ?_⟩
  rw [try_from_pipeline]
  cases hcf : collect_files inc ign base node [] with
  | mk fst snd =>
    cases fst with
    | error e => simp
    | ok u =>
      simp only
      by_cases hemp : snd.isEmpty = true
      · simp [hemp]
      · have hsome : (mkEntries base snd).isSome := by
          refine mkEntries_isSome base snd (fun q hq => ?_)
          have : q ∈ (collect_files inc ign base node []).2 := by rw [hcf]; exact hq
          rw [mkEntry, hstrip q this]
          rfl
        simp only [hemp, Bool.false_eq_true, if_false]
        cases hme : mkEntries base snd with
        | none => rw [hme] at hsome; exact absurd hsome (by simp)
        | some es => simp

/-- C5 (counterexample): a `base_dir` that exists but is a regular file does
not produce the NotFound error — `collect_files` only checks `exists()`, so
the failure comes from `read_dir` with a different error. -/
theorem claim_c5_counterexample :
    (collect_files none none ["base"] (some FSNode.file) []).1
      = Except.error CFError.readDirNotADirectory ∧
    (collect_files none none ["base"] (some FSNode.file) []).1
      ≠ Except.error CFError.notFound := by
  refine ⟨rfl, by decide⟩

/-- C5 (amended): discovery fails with the NotFound error exactly when
`base_dir` does not exist; an existing non-directory fails through
`read_dir` with a different error. -/
theorem claim_c5_notfound_iff_missing (inc ign : Option (String → Bool))
    (dir : List String) (node : Option FSNode) (files : List (List String)) :
    (collect_files inc ign dir node files).1 = Except.error CFError.notFound ↔
      node = none := by
  match node with
  | none => simp [collect_files]
  | some .file => simp [collect_files]
  | some (.dir es) =>
    simp only [collect_files]
    rw [collectEntriesLoop_fst_ok inc ign es dir files]
    simp

/-- C4: when discovery produces zero matching files the pipeline fails with
the NoMatches error, and a successful pipeline result always has a non-empty
entry list. -/
theorem claim_c4_no_empty_success (inc ign : Option (String → Bool))
    (base : List String) (node : Option FSNode) :
    ((collect_files inc ign base node []).1 = Except.ok () ∧
      (collect_files inc ign base node []).2 = [] →
      try_from_pipeline inc ign base node = Except.error AsmError.noMatches) ∧
    (∀ entries, try_from_pipeline inc ign base node = Except.ok entries →
      entries ≠ []) := by
  constructor
  · rintro ⟨h1, h2⟩
    cases hcf : collect_files inc ign base node [] with
    | mk fst snd =>
      rw [try_from_pipeline, hcf]
      rw [hcf] at h1 h2
      simp only at h1 h2
      subst h1
      subst h2
      rfl
  · intro entries h
    rw [try_from_pipeline] at h
    cases hcf : collect_files inc ign base node [] with
    | mk fst snd =>
      rw [hcf] at h
      cases fst with
      | error e => simp at h
      | ok u =>
        simp only at h
        by_cases hemp : snd.isEmpty = true
        · simp [hemp] at h
        · simp only [hemp, Bool.false_eq_true, if_false] at h
          cases hme : mkEntries base snd with
          | none => rw [hme] at h; simp at h
          | some es =>
            rw [hme] at h
            simp only [Except.ok.injEq] at h
            subst h
            intro hnil
            have hlen := mkEntries_length base snd es hme
            rw [hnil] at hlen
            have : snd = [] := by
              cases snd with
              | nil => rfl
              | cons a b => simp at hlen
            rw [this] at hemp
            exact hemp rfl

/-- C1 (counterexample): two distinct relative paths that synthesize to the
same identifier pass through assembly untouched — the pipeline returns a
successful result carrying the duplicate identifier `ABPng` twice, instead
of failing with a duplicate-identifier error. -/
theorem claim_c1_counterexample :
    try_from_pipeline none none ["b"]
      (some (.dir (.consFile "a-b.png" (.consFile "a_b.png" .nil))))
      = Except.ok
        [{ variant_ident := "ABPng", full_path := "b/a-b.png",
           rel_path := "a-b.png" },
         { variant_ident := "ABPng", full_path := "b/a_b.png",
           rel_path := "a_b.png" }] ∧
    ("a-b.png" : String) ≠ "a_b.png" := by
  refine ⟨by decide, by decide⟩

/-- C1 (amended): the pipeline performs no duplicate-identifier check and
never renames or numbers an identifier — every assembled entry's identifier
is exactly the synthesized name of its relative path, even when two entries
share it. -/
theorem claim_c1_no_renaming (inc ign : Option (String → Bool))
    (base : List String) (node : Option FSNode) (entries : List AssetEntry)
    (h : try_from_pipeline inc ign base node = Except.ok entries) :
    ∀ e ∈ entries, e.variant_ident = path_to_variant_name e.rel_path := by
  rw [try_from_pipeline] at h
  cases hcf : collect_files inc ign base node [] with
  | mk fst snd =>
    rw [hcf] at h
    cases fst with
    | error e => simp at h
    | ok u =>
      simp only at h
      by_cases hemp : snd.isEmpty = true
      · simp [hemp] at h
      · simp only [hemp, Bool.false_eq_true, if_false] at h
        cases hme : mkEntries base snd with
        | none => rw [hme] at h; simp at h
        | some es =>
          rw [hme] at h
          simp only [Except.ok.injEq] at h
          subst h
          exact mkEntries_variant base snd es hme

/-! ## Concrete witnesses -/

/-- C2 witness: with `b/skip` ignored, a path beneath it found in the final
vector was in the accumulator all along. -/
theorem claim_c2_ignore_prunes_witness :
    (["b", "skip", "x"] : List String) ∈ [["b", "skip", "x"]] :=
  claim_c2_ignore_prunes none (some (fun s => s == "b/skip")) ["b"]
    (.consDir "skip" (.consFile "x" .nil) (.consFile "keep" .nil))
    "skip" (.dir (.consFile "x" .nil)) [["b", "skip", "x"]] ["b", "skip", "x"]
    (by decide) (by decide) (by decide) ⟨["x"], rfl⟩

/-- C3 witness: a non-ignored file is collected exactly when the include
pattern matches its full rendered path. -/
theorem claim_c3_include_filter_witness :
    ((["b"] ++ ["a.png"] : List String) ∈
      (collect_files (some (fun s => s == "b/a.png")) none ["b"]
        (some (.dir (.consFile "a.png" .nil))) []).2) ↔
      includeMatches (some (fun s => s == "b/a.png"))
        (render (["b"] ++ ["a.png"])) = true :=
  claim_c3_include_filter (some (fun s => s == "b/a.png")) none ["b"]
    (.consFile "a.png" .nil) "a.png" (by decide) rfl

/-- C9 witness: a concrete discovered path strips, and a concrete pipeline
run cannot end in the strip panic. -/
theorem claim_c9_strip_never_fails_witness :
    stripPrefix ["b"] ["b", "image.png"]
      = some ((["b", "image.png"] : List String).drop
          (["b"] : List String).length) ∧
    try_from_pipeline none none ["b"] (some (.dir (.consFile "image.png" .nil)))
      ≠ Except.error AsmError.stripPanic :=
  ⟨(claim_c9_strip_never_fails none none ["b"]
      (some (.dir (.consFile "image.png" .nil)))).1 ["b", "image.png"] (by decide),
   (claim_c9_strip_never_fails none none ["b"]
      (some (.dir (.consFile "image.png" .nil)))).2⟩

/-- C10 witness: a pre-filled accumulator survives as an initial segment and
the one new element is a collected path. -/
theorem claim_c10_append_only_witness :
    ([["z"]] : List (List String)) <+:
      (collect_files none none ["b"]
        (some (.dir (.consFile "image.png" .nil))) [["z"]]).2 ∧
    ((["b", "image.png"] : List String) ∈ [["z"]] ∨
      ∃ es, (some (FSNode.dir (.consFile "image.png" .nil)) : Option FSNode)
          = some (.dir es) ∧ Collected none none ["b"] es ["b", "image.png"]) :=
  ⟨(claim_c10_append_only none none ["b"]
      (some (.dir (.consFile "image.png" .nil))) [["z"]]).1,
   (claim_c10_append_only none none ["b"]
      (some (.dir (.consFile "image.png" .nil))) [["z"]]).2
      ["b", "image.png"] (by decide)⟩

/-- C4 witness: an empty directory yields the NoMatches error, and a
concrete successful run has a non-empty entry list. -/
theorem claim_c4_no_empty_success_witness :
    try_from_pipeline none none ["b"] (some (.dir .nil))
      = Except.error AsmError.noMatches ∧
    ([{ variant_ident := "ImagePng", full_path := "b/image.png",
        rel_path := "image.png" }] : List AssetEntry) ≠ [] :=
  ⟨(claim_c4_no_empty_success none none ["b"] (some (.dir .nil))).1 ⟨rfl, rfl⟩,
   (claim_c4_no_empty_success none none ["b"]
      (some (.dir (.consFile "image.png" .nil)))).2
      [{ variant_ident := "ImagePng", full_path := "b/image.png",
         rel_path := "image.png" }] (by decide)⟩

/-- C1 witness: a concrete assembled entry carries exactly the synthesized
name of its relative path. -/
theorem claim_c1_no_renaming_witness :
    ({ variant_ident := "ABPng", full_path := "b/a-b.png",
       rel_path := "a-b.png" } : AssetEntry).variant_ident
      = path_to_variant_name
          ({ variant_ident := "ABPng", full_path := "b/a-b.png",
             rel_path := "a-b.png" } : AssetEntry).rel_path :=
  claim_c1_no_renaming none none ["b"]
    (some (.dir (.consFile "a-b.png" (.consFile "a_b.png" .nil))))
    [{ variant_ident := "ABPng", full_path := "b/a-b.png",
       rel_path := "a-b.png" },
     { variant_ident := "ABPng", full_path := "b/a_b.png",
       rel_path := "a_b.png" }] (by decide)
    { variant_ident := "ABPng", full_path := "b/a-b.png",
      rel_path := "a-b.png" } (by decide)
